import Mathlib

/-!
Verification of the opal-merge-translations string merge engine
(`merge-translations.py`).

The Python program is shallowly embedded: the mutable BeautifulSoup parse
tree of a `<translation>` element is rendered as an explicit `TransNode`
value, a `TranslatedString` dataclass instance as an explicit structure,
and in-place mutation as functions returning the updated value (or, for
the frame property, as updates to an explicit heap `Store`).  Python
truthiness of a string `s` is rendered as `s ≠ ""`; `str.strip()` is
`pyStrip`; `str.lower()`/`str.upper()` are `pyLower`/`pyUpper`.
-/

namespace Opal

/-- Python `str.strip()`: remove leading and trailing whitespace. -/
def pyStrip (s : String) : String :=
  ⟨((s.data.dropWhile Char.isWhitespace).reverse.dropWhile Char.isWhitespace).reverse⟩

/-- Python `str.lower()`. -/
def pyLower (s : String) : String := ⟨s.data.map Char.toLower⟩

/-- Python `str.upper()`. -/
def pyUpper (s : String) : String := ⟨s.data.map Char.toUpper⟩

/-- Python `str(x)` applied to an `Optional[str]`: `str(None)` is the
literal string `"None"`. -/
def pyStrOfOpt : Option String → String
  | none => "None"
  | some s => s

/-- `Language` (merge-translations.py lines 34–81): a 2-letter language
code plus an optional region code.  Only the fields are modeled; parsing
(`from_str`) is not needed by the claims. -/
structure Language where
  lang : String
  area : String
deriving DecidableEq

/-- `Language.is_empty` (line 40): Python `not self.lang`. -/
def Language.is_empty (l : Language) : Bool := l.lang = ""

/-- `Language.is_subset_of` (lines 57–69), transcribed branch by branch.
Python truthiness `if self.area` becomes `self.area ≠ ""`. -/
def Language.is_subset_of (self other : Language) : Bool :=
  if self.lang ≠ other.lang then false
  else if self.area ≠ "" ∧ other.area ≠ "" ∧ self.area ≠ other.area then false
  else if self.area ≠ "" ∧ other.area = "" then true
  else if self.area = "" ∧ other.area ≠ "" then false
  else true

/-- `Language.__str__` (lines 74–78): `lang_AREA` when an area is set,
otherwise just the (lower-cased) language code. -/
def Language.str (l : Language) : String :=
  if l.area ≠ "" then pyLower l.lang ++ "_" ++ pyUpper l.area
  else pyLower l.lang

/-- The content of one `<translation>` element: its direct text and its
`<numerusform>` children, in document order.  A well-formed singular
translation has `forms = []`; a plural one has `text = ""`. -/
structure TransNode where
  text : String
  forms : List String
deriving DecidableEq

/-- BeautifulSoup `tag.string`: the unique text descendant if the tag has
exactly one child, otherwise `None`.  An empty text means no text child.
A single `<numerusform>` child contributes its own string. -/
def TransNode.string (n : TransNode) : Option String :=
  if n.text = "" then
    match n.forms with
    | [f] => if f = "" then none else some f
    | _ => none
  else if n.forms = [] then some n.text else none

/-- `numerusform.string` for each plural-form child, as read by
`TranslatedString.__eq__` (line 186): `None` when the form is empty. -/
def formString (f : String) : Option String := if f = "" then none else some f

/-- `TranslatedString` (lines 84–198).  `node` is the `<translation>`
element, `typeAttr` its optional `type` attribute, `numerusAttr` the
optional `numerus` attribute of the parent `<message>`, `commentNode` the
optional `<comment>` child of the parent.  `comment` is the dataclass
field extracted at load time; `set_comment` (lines 93–99) updates only
the node, never the field, which the embedding keeps separate for
fidelity. -/
structure TranslatedString where
  source : String
  node : TransNode
  typeAttr : Option String
  numerusAttr : Option String
  context : String
  comment : String
  commentNode : Option String
  origin : String
deriving DecidableEq

namespace TranslatedString

/-- `is_finished` (lines 142–146): `type` attribute absent, or present
with any value other than `"unfinished"`. -/
def is_finished (t : TranslatedString) : Bool :=
  match t.typeAttr with
  | some v => decide (v ≠ "unfinished")
  | none => true

/-- `has_content` (lines 155–157): `get_text(strip=True) != ''`, i.e. the
direct text or some plural form has non-whitespace content. -/
def has_content (t : TranslatedString) : Bool :=
  decide (pyStrip t.node.text ≠ "") || t.node.forms.any (fun f => decide (pyStrip f ≠ ""))

/-- `has_plurals` (lines 159–163): the parent's `numerus` attribute is
present and equal to `"yes"`. -/
def has_plurals (t : TranslatedString) : Bool :=
  match t.numerusAttr with
  | some v => decide (v = "yes")
  | none => false

/-- `set_comment` (lines 93–99): write the comment node's string, creating
the node if absent.  Either way the node afterwards holds `value`; the
`comment` dataclass field is deliberately left unchanged, as in Python. -/
def set_comment (t : TranslatedString) (value : String) : TranslatedString :=
  { t with commentNode := some value }

/-- `compatibility` (lines 101–140), plural tier: the two `return 0` /
`priority += …` branches guarded by `has_plurals` equality.  `p` is the
priority accumulated by the context and comment tiers. -/
def compatPlural (self other : TranslatedString) (p : Nat) : Nat :=
  if self.has_plurals = other.has_plurals then
    if self.node.forms.length = other.node.forms.length then p + 1 + 1 else p + 1
  else 0

/-- `compatibility` (lines 101–140): source text, context (with the
Opal-specific equivalent-context allow-list), comment and plural tiers. -/
def compatibility (self other : TranslatedString) : Nat :=
  if self.source ≠ other.source then 0
  else
    let p1 : Nat :=
      if self.context = other.context then 4
      else if (self.context = "Opal.About.Common" ∨ other.context = "Opal.About.Common")
              ∧ (self.context = "AboutPage" ∨ other.context = "AboutPage") then 4
      else 0
    if self.comment = other.comment then compatPlural self other (p1 + 2)
    else if (self.comment = "" ∧ other.comment ≠ "") ∨ (self.comment ≠ "" ∧ other.comment = "") then
      compatPlural self other (p1 + 1)
    else 0

/-- `__eq__` (lines 172–195): content equality — source text, plural
marker, finished flag and comment, then the plural-form strings (when the
marker is set) or the single translation string.  Context is deliberately
not compared. -/
def pyEq (a b : TranslatedString) : Bool :=
  if a.source ≠ b.source ∨ a.has_plurals ≠ b.has_plurals
      ∨ a.is_finished ≠ b.is_finished ∨ a.comment ≠ b.comment then false
  else if a.has_plurals then
    decide (a.node.forms.length = b.node.forms.length)
      && decide (a.node.forms.map formString = b.node.forms.map formString)
  else decide (a.node.string = b.node.string)

/-- `__hash__` (lines 197–198) hashes `str(origin) + str(translation)`;
two occurrences land in the same dict slot iff their hashes agree and
`__eq__` holds.  Hash agreement is modeled as equality of the hashed
data: origin, translation content and the translation's `type`
attribute. -/
def keySame (a b : TranslatedString) : Bool :=
  (decide (a.origin = b.origin) && decide (a.node = b.node)
    && decide (a.typeAttr = b.typeAttr)) && pyEq a b

end TranslatedString

/-- The running `alternatives` map of `_do_merge_string` (line 524): a
`defaultdict(list)` keyed by target occurrence, rendered as an
association list in insertion order. -/
abbrev Alternatives := List (TranslatedString × List TranslatedString)

/-- `alternatives[target]` read access: the entry whose key shares the
target's dict slot, or the defaultdict default `[]`. -/
def altLookup (alts : Alternatives) (t : TranslatedString) : List TranslatedString :=
  match alts.find? (fun p => p.1.keySame t) with
  | some p => p.2
  | none => []

/-- Replace the slot of `t` with `v`, creating it at the end (dict
insertion order) when absent. -/
def altUpdate : Alternatives → TranslatedString → List TranslatedString → Alternatives
  | [], t, v => [(t, v)]
  | p :: rest, t, v =>
    if p.1.keySame t then (p.1, v) :: rest else p :: altUpdate rest t v

/-- Lines 544–545: `if matching_source not in alternatives[target]:
alternatives[target].append(matching_source)` — Python `in` uses
`__eq__`. -/
def altRecord (alts : Alternatives) (t m : TranslatedString) : Alternatives :=
  if (altLookup alts t).any (fun x => x.pyEq m) then alts
  else altUpdate alts t (altLookup alts t ++ [m])

/-- Lines 527–533: the candidate actually used for a target occurrence.
The comprehension keeps `[x, score]` pairs with positive score,
`list.sort(key=…)` is a stable ascending sort, and `[0][0]` takes the
first element of the sorted list. -/
def pickCandidate (t : TranslatedString) (sourceOptions : List TranslatedString) :
    Option TranslatedString :=
  let matching := (sourceOptions.filter (fun x => decide (0 < t.compatibility x))).map
    (fun x => (x, t.compatibility x))
  (List.insertionSort (fun a b => a.2 ≤ b.2) matching).head?.map Prod.fst

/-- Lines 548–562: the apply block of `_do_merge_string`.  Comment copied
onto the target's comment node when the candidate has one and the target
field has none; plural candidates have the target's `<numerusform>`
children extracted and copies of their own appended (direct text is left
in place) and set `numerus="yes"`; singular candidates have their
`tag.string` assigned (replacing all children); finally the finished
flag is copied through the `is_finished` setter (lines 148–153). -/
def applyCandidate (target m : TranslatedString) : TranslatedString :=
  let t1 := if m.comment ≠ "" ∧ target.comment = "" then target.set_comment m.comment else target
  let t2 :=
    if m.has_plurals then
      { t1 with node := { text := t1.node.text, forms := m.node.forms },
                numerusAttr := some "yes" }
    else
      { t1 with node := { text := pyStrOfOpt m.node.string, forms := [] } }
  { t2 with typeAttr := if m.is_finished then some "" else some "unfinished" }

/-- One iteration of the `for target in target_options` loop of
`_do_merge_string` (lines 526–564): returns the (possibly updated)
target occurrence, the change count contribution and the updated
alternatives map. -/
def mergeTargetStep (selfOverwrite : Bool) (ow : Option Bool)
    (sourceOptions : List TranslatedString) (t : TranslatedString)
    (alts : Alternatives) : TranslatedString × Nat × Alternatives :=
  match pickCandidate t sourceOptions with
  | none => (t, 0, alts)
  | some m =>
    if !m.has_content then (t, 0, alts)
    else if t.pyEq m then (t, 0, alts)
    else if t.is_finished && t.has_content
        && ((ow == none && !selfOverwrite) || ow == some false) then
      (t, 0, altRecord alts t m)
    else (applyCandidate t m, 1, alts)

/-- The loop of `_do_merge_string` over all target occurrences, threading
`changes` and `alternatives`; in-place mutation of the target
occurrences is rendered by returning the updated list. -/
def doMergeStringAux (selfOverwrite : Bool) (ow : Option Bool)
    (sourceOptions : List TranslatedString) :
    List TranslatedString → Nat → Alternatives →
      Nat × Alternatives × List TranslatedString
  | [], changes, alts => (changes, alts, [])
  | t :: ts, changes, alts =>
    let r := mergeTargetStep selfOverwrite ow sourceOptions t alts
    let rest := doMergeStringAux selfOverwrite ow sourceOptions ts (changes + r.2.1) r.2.2
    (rest.1, rest.2.1, r.1 :: rest.2.2)

/-- `Merger._do_merge_string` (lines 517–566).  `selfOverwrite` is
`self.overwrite`, `ow` the `overwrite` keyword argument.  The Python
return value `(key, changes, alternatives)` is rendered as
`(changes, alternatives, updated target occurrences)`; the unchanged
`key` passthrough is dropped. -/
def doMergeString (selfOverwrite : Bool) (sourceOptions targetOptions : List TranslatedString)
    (ow : Option Bool) : Nat × Alternatives × List TranslatedString :=
  doMergeStringAux selfOverwrite ow sourceOptions targetOptions 0 []

example : (Language.mk "fr" "").is_subset_of (Language.mk "fr" "") = true := by decide
example : (Language.mk "fr" "CA").is_subset_of (Language.mk "fr" "") = true := by decide
example : (Language.mk "fr" "").is_subset_of (Language.mk "fr" "CA") = false := by decide
example : (Language.mk "de" "").is_subset_of (Language.mk "fr" "") = false := by decide

/-- C2 counterexample: the claimed characterization — subset iff same
`lang` and *either side's* area is empty or both areas match — is false
at `Language("fr","")` vs `Language("fr","CA")`: the code returns
`False` although the claimed right-hand side holds. -/
theorem language_subset_claim_counterexample :
    ¬ ((Language.mk "fr" "").is_subset_of (Language.mk "fr" "CA") = true ↔
        ((Language.mk "fr" "").lang = (Language.mk "fr" "CA").lang
          ∧ ((Language.mk "fr" "").area = "" ∨ (Language.mk "fr" "CA").area = ""
              ∨ (Language.mk "fr" "").area = (Language.mk "fr" "CA").area))) := by
  decide

/-- C2 (amended): `A.is_subset_of(B)` holds iff same `lang` and *B's*
area is empty or both areas match.  The relation is reflexive;
`Language(x,"")` is a subset of `Language(x,"")` but not of any
regionalized `Language(x,ar)`; `Language(x,"A")` is a subset only of
`Language(x,"")` or `Language(x,"A")`. -/
theorem language_subset_characterization :
    (∀ a b : Language, a.is_subset_of b = true ↔ (a.lang = b.lang ∧ (b.area = "" ∨ a.area = b.area)))
    ∧ (∀ a : Language, a.is_subset_of a = true)
    ∧ (∀ x ar : String, ar ≠ "" → (Language.mk x "").is_subset_of (Language.mk x ar) = false)
    ∧ (∀ x ar : String, ar ≠ "" →
        (Language.mk x ar).is_subset_of (Language.mk x "") = true
        ∧ (Language.mk x ar).is_subset_of (Language.mk x ar) = true
        ∧ ∀ b : String, b ≠ "" → b ≠ ar →
            (Language.mk x ar).is_subset_of (Language.mk x b) = false) := by
  have key : ∀ a b : Language,
      a.is_subset_of b = true ↔ (a.lang = b.lang ∧ (b.area = "" ∨ a.area = b.area)) := by
    intro a b
    simp only [Language.is_subset_of]
    by_cases h1 : a.lang = b.lang
    · by_cases h2 : a.area = ""
      · by_cases h3 : b.area = ""
        · simp [h1, h2, h3]
        · simp [h1, h2, h3, Ne.symm h3]
      · by_cases h3 : b.area = ""
        · simp [h1, h2, h3]
        · by_cases h4 : a.area = b.area <;> simp [h1, h2, h3, h4]
    · simp [h1]
  refine ⟨key, ?_, ?_, ?_⟩
  · intro a
    exact (key a a).mpr ⟨rfl, Or.inr rfl⟩
  · intro x ar har
    rw [← Bool.not_eq_true, key]
    simp [har, Ne.symm har]
  · intro x ar har
    refine ⟨(key _ _).mpr ⟨rfl, Or.inl rfl⟩, (key _ _).mpr ⟨rfl, Or.inr rfl⟩, ?_⟩
    intro b hb hbar
    rw [← Bool.not_eq_true, key]
    simp [hb, Ne.symm hbar]

/-- Witness for C2's amended theorem at concrete languages. -/
theorem language_subset_characterization_witness :
    (Language.mk "fr" "CA").is_subset_of (Language.mk "fr" "") = true
    ∧ (Language.mk "fr" "").is_subset_of (Language.mk "fr" "CA") = false := by
  have h := language_subset_characterization
  exact ⟨(h.2.2.2 "fr" "CA" (by decide)).1, h.2.2.1 "fr" "CA" (by decide)⟩

/-- C3: for occurrences with equal source text the compatibility score is
0 exactly when plural-ness differs or both comments are non-empty and
different; otherwise it is the sum of 4 for an identical or allow-listed
context pair, 2 for identical comments or 1 when exactly one side has a
comment, 1 for matching plural-ness, and 1 more when the numbers of
plural forms agree. -/
theorem compatibility_score_spec (a b : TranslatedString) (h : a.source = b.source) :
    (a.compatibility b = 0 ↔
      (a.has_plurals ≠ b.has_plurals
        ∨ (a.comment ≠ "" ∧ b.comment ≠ "" ∧ a.comment ≠ b.comment)))
    ∧ (a.has_plurals = b.has_plurals →
        ¬(a.comment ≠ "" ∧ b.comment ≠ "" ∧ a.comment ≠ b.comment) →
        a.compatibility b =
          (if a.context = b.context
              ∨ ((a.context = "Opal.About.Common" ∨ b.context = "Opal.About.Common")
                  ∧ (a.context = "AboutPage" ∨ b.context = "AboutPage")) then 4 else 0)
          + (if a.comment = b.comment then 2 else 1) + 1
          + (if a.node.forms.length = b.node.forms.length then 1 else 0)) := by
  by_cases h1 : a.context = b.context <;>
  by_cases h2 : (a.context = "Opal.About.Common" ∨ b.context = "Opal.About.Common")
      ∧ (a.context = "AboutPage" ∨ b.context = "AboutPage") <;>
  by_cases h3 : a.comment = b.comment <;>
  by_cases h4 : a.comment = "" <;>
  by_cases h5 : b.comment = "" <;>
  by_cases h6 : a.has_plurals = b.has_plurals <;>
  by_cases h7 : a.node.forms.length = b.node.forms.length <;>
    simp_all [TranslatedString.compatibility, TranslatedString.compatPlural]

/-- Witness for C3 at two concrete occurrences with equal source text. -/
theorem compatibility_score_spec_witness :
    ({ source := "k", node := { text := "x", forms := [] }, typeAttr := none,
       numerusAttr := none, context := "C", comment := "", commentNode := none,
       origin := "t.ts" } : TranslatedString).compatibility
      { source := "k", node := { text := "y", forms := [] }, typeAttr := none,
        numerusAttr := none, context := "C", comment := "", commentNode := none,
        origin := "s.ts" } = 8 := by
  have h := (compatibility_score_spec
    { source := "k", node := { text := "x", forms := [] }, typeAttr := none,
      numerusAttr := none, context := "C", comment := "", commentNode := none,
      origin := "t.ts" }
    { source := "k", node := { text := "y", forms := [] }, typeAttr := none,
      numerusAttr := none, context := "C", comment := "", commentNode := none,
      origin := "s.ts" } rfl).2 (by decide) (by decide)
  rw [h]
  decide

/-- An unfinished, empty target occurrence for source text `"k"`. -/
def exTargetEmpty : TranslatedString :=
  { source := "k", node := { text := "", forms := [] }, typeAttr := some "unfinished",
    numerusAttr := none, context := "A", comment := "", commentNode := none, origin := "t.ts" }

/-- A candidate matching `exTargetEmpty` on context (score 8). -/
def exHigh : TranslatedString :=
  { source := "k", node := { text := "high", forms := [] }, typeAttr := none,
    numerusAttr := none, context := "A", comment := "", commentNode := none, origin := "s.ts" }

/-- A candidate differing from `exTargetEmpty` in context (score 4). -/
def exLow : TranslatedString :=
  { source := "k", node := { text := "low", forms := [] }, typeAttr := none,
    numerusAttr := none, context := "B", comment := "", commentNode := none, origin := "s.ts" }

/-- C1 (code bug, lines 527–533): with candidates of scores 8 and 4 the
engine applies the text of the score-4 candidate: the list of scored
candidates is sorted in *ascending* score order and element `[0]` is
taken, so the lowest-scoring candidate wins, although the inline comment
says "take the highest priority match" and the claim says the
first-highest wins. -/
theorem merge_applies_lowest_scoring_candidate :
    exTargetEmpty.compatibility exHigh = 8
    ∧ exTargetEmpty.compatibility exLow = 4
    ∧ doMergeString false [exHigh, exLow] [exTargetEmpty] none =
        (1, [], [{ exTargetEmpty with node := { text := "low", forms := [] }, typeAttr := some "" }]) := by
  decide

/-- C4: a winning candidate with content that is not content-equal to a
finished, non-empty target with overwrite off is recorded as exactly one
alternative; no change is counted and the target occurrence keeps all
its prior values. -/
theorem merge_blocked_records_alternative
    (srcs : List TranslatedString) (t m : TranslatedString)
    (hpick : pickCandidate t srcs = some m)
    (hc : m.has_content = true)
    (hne : t.pyEq m = false)
    (hfin : t.is_finished = true)
    (hcont : t.has_content = true) :
    doMergeString false srcs [t] none = (0, [(t, [m])], [t]) := by
  simp [doMergeString, doMergeStringAux, mergeTargetStep, hpick, hc, hne, hfin, hcont,
    altRecord, altLookup, altUpdate]

/-- The already-translated target of the spec's overwrite example. -/
def exSalut : TranslatedString :=
  { source := "Hi", node := { text := "Salut", forms := [] }, typeAttr := none,
    numerusAttr := none, context := "C", comment := "", commentNode := none, origin := "t.ts" }

/-- The conflicting finished source occurrence of the same example. -/
def exBonjour : TranslatedString :=
  { source := "Hi", node := { text := "Bonjour", forms := [] }, typeAttr := none,
    numerusAttr := none, context := "C", comment := "", commentNode := none, origin := "s.ts" }

/-- Witness for C4: the spec's `"Salut"`/`"Bonjour"` example. -/
theorem merge_blocked_records_alternative_witness :
    doMergeString false [exBonjour] [exSalut] none = (0, [(exSalut, [exBonjour])], [exSalut]) :=
  merge_blocked_records_alternative [exBonjour] exSalut exBonjour
    (by decide) (by decide) (by decide) (by decide) (by decide)

/-- `pyStrip` of the empty string is empty, so non-empty stripped text
means non-empty text. -/
theorem pyStrip_ne_empty {s : String} (h : pyStrip s ≠ "") : s ≠ "" := by
  intro hs
  subst hs
  exact h rfl

/-- The comment node after the apply block: set to the candidate's
comment exactly when the candidate has one and the target field has
none. -/
theorem applyCandidate_commentNode (t m : TranslatedString) :
    (applyCandidate t m).commentNode =
      if m.comment ≠ "" ∧ t.comment = "" then some m.comment else t.commentNode := by
  by_cases hset : m.comment ≠ "" ∧ t.comment = "" <;>
  by_cases hp : m.has_plurals <;>
    simp [applyCandidate, TranslatedString.set_comment, hset, hp]

/-- Reading `is_finished` back after the setter wrote `b`. -/
theorem is_finished_of_typeAttr (t : TranslatedString) (b : Bool)
    (h : t.typeAttr = if b then some "" else some "unfinished") : t.is_finished = b := by
  cases b <;> simp [TranslatedString.is_finished, h]

/-- C5: an applied winning candidate copies its comment onto the target
exactly when the target has none, replaces the target's plural-form list
wholesale (plural candidate) or copies its text (singular candidate),
sets the target's finished flag to its own, and counts one change. -/
theorem merge_apply_spec
    (selfOverwrite : Bool) (ow : Option Bool) (srcs : List TranslatedString)
    (t m : TranslatedString)
    (hpick : pickCandidate t srcs = some m)
    (hc : m.has_content = true)
    (hne : t.pyEq m = false)
    (hnb : (t.is_finished && t.has_content
        && ((ow == none && !selfOverwrite) || ow == some false)) = false)
    (hshape : m.has_plurals = false → m.node.forms = []) :
    ∃ t2, doMergeString selfOverwrite srcs [t] ow = (1, [], [t2])
      ∧ (m.comment ≠ "" → t.comment = "" → t2.commentNode = some m.comment)
      ∧ (t.comment ≠ "" → t2.commentNode = t.commentNode)
      ∧ (m.comment = "" → t2.commentNode = t.commentNode)
      ∧ (m.has_plurals = true → t2.node.forms = m.node.forms ∧ t2.numerusAttr = some "yes")
      ∧ (m.has_plurals = false → t2.node = { text := m.node.text, forms := [] })
      ∧ t2.is_finished = m.is_finished := by
  refine ⟨applyCandidate t m, ?_, ?_, ?_, ?_, ?_, ?_, ?_⟩
  · simp [doMergeString, doMergeStringAux, mergeTargetStep, hpick, hc, hne, hnb]
  · intro hm ht
    simp [applyCandidate_commentNode, hm, ht]
  · intro ht
    simp [applyCandidate_commentNode, ht]
  · intro hm
    simp [applyCandidate_commentNode, hm]
  · intro hm
    simp [applyCandidate, hm]
  · intro hm
    have hforms := hshape hm
    have htext : m.node.text ≠ "" := by
      have hcontent := hc
      simp [TranslatedString.has_content, hforms] at hcontent
      exact pyStrip_ne_empty hcontent
    simp [applyCandidate, hm, TransNode.string, htext, hforms, pyStrOfOpt]
  · apply is_finished_of_typeAttr
    simp [applyCandidate]

/-- An unfinished, empty target for the witness of C5. -/
def exHiEmpty : TranslatedString :=
  { source := "Hi", node := { text := "", forms := [] }, typeAttr := some "unfinished",
    numerusAttr := none, context := "C", comment := "", commentNode := none, origin := "t.ts" }

/-- Witness for C5: the spec's fill-in example — `"Bonjour"` is applied
onto the unfinished empty target, which becomes finished, one change. -/
theorem merge_apply_spec_witness :
    ∃ t2, doMergeString false [exBonjour] [exHiEmpty] none = (1, [], [t2])
      ∧ (exBonjour.comment ≠ "" → exHiEmpty.comment = "" → t2.commentNode = some exBonjour.comment)
      ∧ (exHiEmpty.comment ≠ "" → t2.commentNode = exHiEmpty.commentNode)
      ∧ (exBonjour.comment = "" → t2.commentNode = exHiEmpty.commentNode)
      ∧ (exBonjour.has_plurals = true →
          t2.node.forms = exBonjour.node.forms ∧ t2.numerusAttr = some "yes")
      ∧ (exBonjour.has_plurals = false →
          t2.node = { text := exBonjour.node.text, forms := [] })
      ∧ t2.is_finished = exBonjour.is_finished :=
  merge_apply_spec false none [exBonjour] exHiEmpty exBonjour
    (by decide) (by decide) (by decide) (by decide) (fun _ => by decide)

/-- A finished target occurrence, context `"A"`, text `"x"`. -/
def exIdA : TranslatedString :=
  { source := "k", node := { text := "x", forms := [] }, typeAttr := none,
    numerusAttr := none, context := "A", comment := "", commentNode := none, origin := "t.ts" }

/-- A second finished target occurrence of the same source text, context
`"B"`, text `"y"`. -/
def exIdB : TranslatedString :=
  { exIdA with node := { text := "y", forms := [] }, context := "B" }

/-- The source-side copy of `exIdA` (same content, other file). -/
def exIdA' : TranslatedString := { exIdA with origin := "s.ts" }

/-- The source-side copy of `exIdB` (same content, other file). -/
def exIdB' : TranslatedString := { exIdB with origin := "s.ts" }

/-- C6 (code bug): merging a target against an exact finished copy of
itself is *not* idempotent.  Every source occurrence is content-equal to
its target twin, yet the run records two alternatives: for each target
occurrence the ascending sort of lines 527–533 selects the *other*,
lower-scoring occurrence (score 4) instead of the content-equal twin
(score 8), so the equality short-circuit of line 538 never fires. -/
theorem self_merge_records_alternatives :
    exIdA.pyEq exIdA' = true ∧ exIdB.pyEq exIdB' = true
    ∧ doMergeString false [exIdA', exIdB'] [exIdA, exIdB] none =
        (0, [(exIdA, [exIdB']), (exIdB, [exIdA'])], [exIdA, exIdB]) := by
  decide

/-- A non-empty, unfinished singular target entry whose message carries
`numerus="yes"` but whose translation has no `<numerusform>` children. -/
def exShapeT : TranslatedString :=
  { source := "k", node := { text := "x", forms := [] }, typeAttr := some "unfinished",
    numerusAttr := some "yes", context := "A", comment := "", commentNode := none,
    origin := "t.ts" }

/-- A plural source entry with two `<numerusform>` children: its raw XML
shape disagrees with `exShapeT`'s. -/
def exShapeS : TranslatedString :=
  { source := "k", node := { text := "", forms := ["a", "b"] }, typeAttr := none,
    numerusAttr := some "yes", context := "A", comment := "", commentNode := none,
    origin := "s.ts" }

/-- C9 counterexample: the sides disagree on plural-ness at the raw
XML-shape level (the target has no plural child nodes, the source has
two) and the target is *not* empty, so the claim says the entry is left
alone with only a warning — but `_do_merge_string` has no shape check or
warning at all: it merges normally, modifying the entry and counting one
change. -/
theorem plural_shape_mismatch_counterexample :
    exShapeT.node.forms = [] ∧ exShapeS.node.forms ≠ []
    ∧ exShapeT.has_content = true
    ∧ doMergeString false [exShapeS] [exShapeT] none =
        (1, [], [{ exShapeT with node := { text := "x", forms := ["a", "b"] }, typeAttr := some "" }]) := by
  decide

/-- C9 (amended): the merge engine performs no raw-XML-shape check and
emits no warning — the plural/singular path depends only on the
candidate's `has_plurals` marker.  In particular, whenever a plural
winning candidate is applied against a target whose translation has no
plural child nodes, the target's form list becomes the candidate's even
when the target is non-empty, so the entry is not left alone. -/
theorem plural_shape_mismatch_merges_anyway
    (selfOverwrite : Bool) (ow : Option Bool) (srcs : List TranslatedString)
    (t m : TranslatedString)
    (hpick : pickCandidate t srcs = some m)
    (hc : m.has_content = true)
    (hne : t.pyEq m = false)
    (hnb : (t.is_finished && t.has_content
        && ((ow == none && !selfOverwrite) || ow == some false)) = false)
    (hm : m.has_plurals = true)
    (hshape : t.node.forms = [] ∧ m.node.forms ≠ [])
    (hnonempty : t.has_content = true) :
    ∃ t2, doMergeString selfOverwrite srcs [t] ow = (1, [], [t2])
      ∧ t2.node.forms = m.node.forms ∧ t2 ≠ t := by
  refine ⟨applyCandidate t m, ?_, ?_, ?_⟩
  · simp [doMergeString, doMergeStringAux, mergeTargetStep, hpick, hc, hne, hnb]
  · simp [applyCandidate, hm]
  · intro heq
    have hforms : (applyCandidate t m).node.forms = m.node.forms := by
      simp [applyCandidate, hm]
    rw [heq] at hforms
    rw [hshape.1] at hforms
    exact hshape.2 hforms.symm

/-- Witness for C9's amended theorem at the shape-mismatch example. -/
theorem plural_shape_mismatch_merges_anyway_witness :
    ∃ t2, doMergeString false [exShapeS] [exShapeT] none = (1, [], [t2])
      ∧ t2.node.forms = exShapeS.node.forms ∧ t2 ≠ exShapeT :=
  plural_shape_mismatch_merges_anyway false none [exShapeS] exShapeT exShapeS
    (by decide) (by decide) (by decide) (by decide) (by decide)
    ⟨by decide, by decide⟩ (by decide)

/-- The slice of `TsFile` (lines 201–259) read and written by the
matcher's orphan loop: the file's path name, its `language` field, the
declared `language` attribute of the root `<TS>` element, and the rest
of the parsed catalogue tree (inherited untouched from the base
catalogue when a new file is synthesized). -/
structure TsFileM where
  pathName : String
  language : Language
  tsLangAttr : String
  body : String
deriving DecidableEq

/-- `re.sub(r'\.[tT][sS]$', f'-{language}.ts', name)` (line 497): replace
a final `.ts` extension (any case) by `-<language>.ts`; a name without
such an extension is returned unchanged. -/
def tsSuffixSub (name langStr : String) : String :=
  match name.data.drop (name.data.length - 3) with
  | ['.', c1, c2] =>
    if (c1 = 't' ∨ c1 = 'T') ∧ (c2 = 's' ∨ c2 = 'S') then
      String.mk (name.data.take (name.data.length - 3)) ++ "-" ++ langStr ++ ".ts"
    else name
  | _ => name

/-- Lines 495–498: the synthetic target catalogue for orphaned language
`l` — the base catalogue reloaded, with its `language` field overwritten,
its path renamed into the output directory with a `-<language>` suffix,
and its declared `<TS language=…>` attribute rewritten. -/
def mkExtraCatalogue (base : TsFileM) (baseName outDir : String) (l : Language) : TsFileM :=
  { base with
    language := l
    pathName := outDir ++ "/" ++ tsSuffixSub baseName l.str
    tsLangAttr := l.str }

/-- `extra_catalogues[lang]` read access (`lang not in extra_catalogues`
and `extra_catalogues[s_file.language]`, lines 494 and 501). -/
def extraLookup (extra : List (Language × TsFileM)) (l : Language) : Option TsFileM :=
  (extra.find? (fun p => decide (p.1 = l))).map Prod.snd

/-- The orphan loop of `Merger._match` (lines 488–503), for a run with a
configured base catalogue (`self.base_catalogue` non-null): fold over
the source files; already-handled files are skipped, files with an empty
language go to `not_handled`, and every other file is paired with the
`extra_catalogues` entry for its language, created on first need.
Returns `(extra_catalogues, pair additions, not_handled additions)`;
`self.pairs[catalogue].append(s_file)` is flattened into a list of
`(catalogue, source)` pairs in loop order. -/
def matchOrphans (base : TsFileM) (baseName outDir : String) (handled : List TsFileM) :
    List TsFileM → List (Language × TsFileM) →
      List (Language × TsFileM) × List (TsFileM × TsFileM) × List TsFileM
  | [], extra => (extra, [], [])
  | s :: rest, extra =>
    if s ∈ handled then matchOrphans base baseName outDir handled rest extra
    else if s.language.is_empty then
      let r := matchOrphans base baseName outDir handled rest extra
      (r.1, r.2.1, s :: r.2.2)
    else
      match extraLookup extra s.language with
      | some c =>
        let r := matchOrphans base baseName outDir handled rest extra
        (r.1, (c, s) :: r.2.1, r.2.2)
      | none =>
        let c := mkExtraCatalogue base baseName outDir s.language
        let r := matchOrphans base baseName outDir handled rest (extra ++ [(s.language, c)])
        (r.1, (c, s) :: r.2.1, r.2.2)

/-- A source file is orphaned with language `l` when no target consumed
it and its language is the non-empty `l`. -/
def isOrphanedAs (handled : List TsFileM) (l : Language) (s : TsFileM) : Bool :=
  decide (s ∉ handled) && !s.language.is_empty && decide (s.language = l)

/-- Appending a fresh entry does not disturb an existing slot. -/
theorem extraLookup_append_of_some {extra : List (Language × TsFileM)} {l : Language}
    {c : TsFileM} (k : Language) (v : TsFileM) (h : extraLookup extra l = some c) :
    extraLookup (extra ++ [(k, v)]) l = some c := by
  simp only [extraLookup, List.find?_append]
  simp only [extraLookup] at h
  cases hf : extra.find? (fun p => decide (p.1 = l)) with
  | none => rw [hf] at h; simp at h
  | some p => rw [hf] at h; simpa [Option.or] using h

/-- Appending to an absent slot makes the new entry visible. -/
theorem extraLookup_append_of_none {extra : List (Language × TsFileM)} {l : Language}
    (k : Language) (v : TsFileM) (h : extraLookup extra l = none) :
    extraLookup (extra ++ [(k, v)]) l = if k = l then some v else none := by
  simp only [extraLookup, List.find?_append]
  simp only [extraLookup] at h
  cases hf : extra.find? (fun p => decide (p.1 = l)) with
  | none =>
    by_cases hk : k = l <;> simp [List.find?, hk, Option.or]
  | some p => rw [hf] at h; simp at h

/-- An absent slot means the key is not among the stored keys. -/
theorem extraLookup_none_not_mem {extra : List (Language × TsFileM)} {l : Language}
    (h : extraLookup extra l = none) : l ∉ extra.map Prod.fst := by
  simp only [extraLookup, Option.map_eq_none', List.find?_eq_none] at h
  intro hmem
  rcases List.mem_map.mp hmem with ⟨p, hp, hpl⟩
  exact h p hp (by simpa using hpl)

/-- A filled slot means the key is among the stored keys. -/
theorem extraLookup_some_mem {extra : List (Language × TsFileM)} {l : Language}
    {c : TsFileM} (h : extraLookup extra l = some c) : l ∈ extra.map Prod.fst := by
  simp only [extraLookup, Option.map_eq_some'] at h
  rcases h with ⟨p, hp, _⟩
  have hmem := List.mem_of_find?_eq_some hp
  have hpl : p.1 = l := by simpa using List.find?_some hp
  exact List.mem_map.mpr ⟨p, hmem, hpl⟩

/-- Invariant of the orphan loop: every stored catalogue is the synthetic
one for its key. -/
def ExtraInv (base : TsFileM) (baseName outDir : String)
    (extra : List (Language × TsFileM)) : Prop :=
  ∀ l, extraLookup extra l = none
    ∨ extraLookup extra l = some (mkExtraCatalogue base baseName outDir l)

theorem extraInv_append {base : TsFileM} {baseName outDir : String}
    {extra : List (Language × TsFileM)} (k : Language)
    (hinv : ExtraInv base baseName outDir extra) :
    ExtraInv base baseName outDir (extra ++ [(k, mkExtraCatalogue base baseName outDir k)]) := by
  intro l
  rcases hinv l with h | h
  · rw [extraLookup_append_of_none k _ h]
    by_cases hkl : k = l
    · subst hkl; right; simp
    · left; simp [hkl]
  · right; exact extraLookup_append_of_some k _ h

/-- After the loop, the `extra_catalogues` slot of `l` is filled — with
the synthetic catalogue for `l` — exactly when it was already filled or
some processed source is orphaned with language `l`. -/
theorem matchOrphans_lookup (base : TsFileM) (baseName outDir : String)
    (handled : List TsFileM) :
    ∀ (sources : List TsFileM) (extra : List (Language × TsFileM)),
      ExtraInv base baseName outDir extra →
      ∀ l, extraLookup (matchOrphans base baseName outDir handled sources extra).1 l =
        if (extraLookup extra l).isSome || sources.any (isOrphanedAs handled l) then
          some (mkExtraCatalogue base baseName outDir l)
        else none := by
  intro sources
  induction sources with
  | nil =>
    intro extra hinv l
    rcases hinv l with h | h <;> simp [matchOrphans, h]
  | cons s rest ih =>
    intro extra hinv l
    by_cases hmem : s ∈ handled
    · rw [show matchOrphans base baseName outDir handled (s :: rest) extra
          = matchOrphans base baseName outDir handled rest extra from by
        simp [matchOrphans, hmem]]
      rw [ih extra hinv l]
      simp [isOrphanedAs, hmem]
    · by_cases hemp : s.language.is_empty
      · rw [show (matchOrphans base baseName outDir handled (s :: rest) extra).1
            = (matchOrphans base baseName outDir handled rest extra).1 from by
          simp [matchOrphans, hmem, hemp]]
        rw [ih extra hinv l]
        simp [isOrphanedAs, hemp]
      · cases hlook : extraLookup extra s.language with
        | some c =>
          rw [show (matchOrphans base baseName outDir handled (s :: rest) extra).1
              = (matchOrphans base baseName outDir handled rest extra).1 from by
            simp [matchOrphans, hmem, hemp, hlook]]
          rw [ih extra hinv l]
          by_cases hl : s.language = l
          · subst hl
            simp [hlook, isOrphanedAs, hmem, hemp]
          · simp [isOrphanedAs, hl]
        | none =>
          have hinv' := extraInv_append s.language hinv
          rw [show (matchOrphans base baseName outDir handled (s :: rest) extra).1
              = (matchOrphans base baseName outDir handled rest
                  (extra ++ [(s.language, mkExtraCatalogue base baseName outDir s.language)])).1 from by
            simp [matchOrphans, hmem, hemp, hlook]]
          rw [ih _ hinv' l]
          by_cases hl : s.language = l
          · subst hl
            have hax : extraLookup
                (extra ++ [(s.language, mkExtraCatalogue base baseName outDir s.language)])
                s.language = some (mkExtraCatalogue base baseName outDir s.language) := by
              rw [extraLookup_append_of_none _ _ hlook]
              simp
            rw [hax]
            simp [hlook, isOrphanedAs, hmem, hemp]
          · have hax : extraLookup
                (extra ++ [(s.language, mkExtraCatalogue base baseName outDir s.language)]) l
                = extraLookup extra l := by
              cases hpre : extraLookup extra l with
              | none =>
                rw [extraLookup_append_of_none _ _ hpre]
                simp [hl]
              | some c => exact extraLookup_append_of_some _ _ hpre
            rw [hax]
            simp [isOrphanedAs, hl]

/-- Every orphaned source is paired with the synthetic catalogue for its
language. -/
theorem matchOrphans_pairs_mem (base : TsFileM) (baseName outDir : String)
    (handled : List TsFileM) :
    ∀ (sources : List TsFileM) (extra : List (Language × TsFileM)),
      ExtraInv base baseName outDir extra →
      ∀ s ∈ sources, s ∉ handled → s.language.is_empty = false →
        (mkExtraCatalogue base baseName outDir s.language, s)
          ∈ (matchOrphans base baseName outDir handled sources extra).2.1 := by
  intro sources
  induction sources with
  | nil => intro extra _ s hs; simp at hs
  | cons hd rest ih =>
    intro extra hinv s hs hsh hse
    by_cases hmem : hd ∈ handled
    · rw [show matchOrphans base baseName outDir handled (hd :: rest) extra
          = matchOrphans base baseName outDir handled rest extra from by
        simp [matchOrphans, hmem]]
      rcases List.mem_cons.mp hs with heq | hrest
      · subst heq; exact absurd hmem hsh
      · exact ih extra hinv s hrest hsh hse
    · by_cases hemp : hd.language.is_empty
      · rw [show (matchOrphans base baseName outDir handled (hd :: rest) extra).2.1
            = (matchOrphans base baseName outDir handled rest extra).2.1 from by
          simp [matchOrphans, hmem, hemp]]
        rcases List.mem_cons.mp hs with heq | hrest
        · subst heq; rw [hemp] at hse; exact absurd hse (by simp)
        · exact ih extra hinv s hrest hsh hse
      · cases hlook : extraLookup extra hd.language with
        | some c =>
          rw [show (matchOrphans base baseName outDir handled (hd :: rest) extra).2.1
              = (c, hd) :: (matchOrphans base baseName outDir handled rest extra).2.1 from by
            simp [matchOrphans, hmem, hemp, hlook]]
          rcases List.mem_cons.mp hs with heq | hrest
          · subst heq
            have hc : c = mkExtraCatalogue base baseName outDir s.language := by
              rcases hinv s.language with h | h
              · rw [h] at hlook; cases hlook
              · rw [h] at hlook; exact (Option.some_inj.mp hlook).symm
            rw [hc]
            exact List.mem_cons_self _ _
          · exact List.mem_cons_of_mem _ (ih extra hinv s hrest hsh hse)
        | none =>
          have hinv' := extraInv_append hd.language hinv
          rw [show (matchOrphans base baseName outDir handled (hd :: rest) extra).2.1
              = (mkExtraCatalogue base baseName outDir hd.language, hd) ::
                (matchOrphans base baseName outDir handled rest
                  (extra ++ [(hd.language, mkExtraCatalogue base baseName outDir hd.language)])).2.1 from by
            simp [matchOrphans, hmem, hemp, hlook]]
          rcases List.mem_cons.mp hs with heq | hrest
          · subst heq; exact List.mem_cons_self _ _
          · exact List.mem_cons_of_mem _ (ih _ hinv' s hrest hsh hse)

/-- The loop never creates two entries for the same language. -/
theorem matchOrphans_keys_nodup (base : TsFileM) (baseName outDir : String)
    (handled : List TsFileM) :
    ∀ (sources : List TsFileM) (extra : List (Language × TsFileM)),
      (extra.map Prod.fst).Nodup →
      ((matchOrphans base baseName outDir handled sources extra).1.map Prod.fst).Nodup := by
  intro sources
  induction sources with
  | nil => intro extra hnd; simpa [matchOrphans] using hnd
  | cons hd rest ih =>
    intro extra hnd
    by_cases hmem : hd ∈ handled
    · rw [show matchOrphans base baseName outDir handled (hd :: rest) extra
          = matchOrphans base baseName outDir handled rest extra from by
        simp [matchOrphans, hmem]]
      exact ih extra hnd
    · by_cases hemp : hd.language.is_empty
      · rw [show (matchOrphans base baseName outDir handled (hd :: rest) extra).1
            = (matchOrphans base baseName outDir handled rest extra).1 from by
          simp [matchOrphans, hmem, hemp]]
        exact ih extra hnd
      · cases hlook : extraLookup extra hd.language with
        | some c =>
          rw [show (matchOrphans base baseName outDir handled (hd :: rest) extra).1
              = (matchOrphans base baseName outDir handled rest extra).1 from by
            simp [matchOrphans, hmem, hemp, hlook]]
          exact ih extra hnd
        | none =>
          rw [show (matchOrphans base baseName outDir handled (hd :: rest) extra).1
              = (matchOrphans base baseName outDir handled rest
                  (extra ++ [(hd.language, mkExtraCatalogue base baseName outDir hd.language)])).1 from by
            simp [matchOrphans, hmem, hemp, hlook]]
          apply ih
          rw [List.map_append]
          simp only [List.map_cons, List.map_nil]
          rw [List.nodup_append]
          refine ⟨hnd, List.nodup_singleton _, ?_⟩
          intro a ha hb
          simp at hb
          subst hb
          exact extraLookup_none_not_mem hlook ha

/-- On a name with a `.ts` extension the path rewrite of line 497 embeds
`-<language>` right before the extension. -/
theorem tsSuffixSub_append (stem langStr : String) :
    tsSuffixSub (stem ++ ".ts") langStr = stem ++ "-" ++ langStr ++ ".ts" := by
  have hdata : (stem ++ ".ts").data = stem.data ++ ['.', 't', 's'] := by
    rw [String.data_append]
  have hlen : (stem.data ++ ['.', 't', 's']).length - 3 = stem.data.length := by
    simp
  unfold tsSuffixSub
  rw [hdata, hlen, List.drop_left, List.take_left]
  simp

/-- C7: during matching with a configured base catalogue, each distinct
orphaned language gets exactly one synthetic target catalogue, shared by
all orphaned sources of that language; its declared `<TS>` language
attribute is the orphaned language's canonical tag and its path embeds
`-<language>` before the `.ts` extension. -/
theorem matcher_one_catalogue_per_orphan_language
    (base : TsFileM) (baseName outDir : String) (handled sources : List TsFileM)
    (l : Language)
    (horphan : sources.any (isOrphanedAs handled l) = true) :
    ((matchOrphans base baseName outDir handled sources []).1.map Prod.fst).count l = 1
    ∧ extraLookup (matchOrphans base baseName outDir handled sources []).1 l
        = some (mkExtraCatalogue base baseName outDir l)
    ∧ (mkExtraCatalogue base baseName outDir l).language = l
    ∧ (mkExtraCatalogue base baseName outDir l).tsLangAttr = l.str
    ∧ (mkExtraCatalogue base baseName outDir l).body = base.body
    ∧ (∀ stem : String, baseName = stem ++ ".ts" →
        (mkExtraCatalogue base baseName outDir l).pathName
          = outDir ++ "/" ++ (stem ++ "-" ++ l.str ++ ".ts"))
    ∧ (∀ s ∈ sources, s ∉ handled → s.language.is_empty = false →
        (mkExtraCatalogue base baseName outDir s.language, s)
          ∈ (matchOrphans base baseName outDir handled sources []).2.1) := by
  have hinv : ExtraInv base baseName outDir [] := by
    intro l'
    left
    rfl
  have hlook := matchOrphans_lookup base baseName outDir handled sources [] hinv l
  rw [horphan] at hlook
  simp only [extraLookup, List.find?_nil, Option.map_none', Option.isSome_none,
    Bool.false_or, if_true] at hlook
  refine ⟨?_, hlook, rfl, rfl, rfl, ?_, ?_⟩
  · exact List.count_eq_one_of_mem
      (matchOrphans_keys_nodup base baseName outDir handled sources [] (by simp))
      (extraLookup_some_mem hlook)
  · intro stem hstem
    subst hstem
    simp only [mkExtraCatalogue]
    rw [tsSuffixSub_append]
  · intro s hs hsh hse
    exact matchOrphans_pairs_mem base baseName outDir handled sources [] hinv s hs hsh hse

/-- The base catalogue of the C7 witness. -/
def exBase : TsFileM :=
  { pathName := "harbour-app.ts", language := Language.mk "" "",
    tsLangAttr := "", body := "messages" }

/-- An orphaned `fr_CA` source file. -/
def exSrcFrCA : TsFileM :=
  { pathName := "other/harbour-app-fr_CA.ts", language := Language.mk "fr" "CA",
    tsLangAttr := "fr_CA", body := "translated" }

/-- Witness for C7: an orphaned `fr_CA` source with base `harbour-app.ts`
yields one synthetic catalogue with declared language `fr_CA` and path
`out/harbour-app-fr_CA.ts`. -/
theorem matcher_one_catalogue_per_orphan_language_witness :
    ((matchOrphans exBase "harbour-app.ts" "out" [] [exSrcFrCA] []).1.map Prod.fst).count
        (Language.mk "fr" "CA") = 1
    ∧ extraLookup (matchOrphans exBase "harbour-app.ts" "out" [] [exSrcFrCA] []).1
        (Language.mk "fr" "CA")
        = some (mkExtraCatalogue exBase "harbour-app.ts" "out" (Language.mk "fr" "CA"))
    ∧ (mkExtraCatalogue exBase "harbour-app.ts" "out" (Language.mk "fr" "CA")).tsLangAttr
        = "fr_CA"
    ∧ (mkExtraCatalogue exBase "harbour-app.ts" "out" (Language.mk "fr" "CA")).pathName
        = "out/harbour-app-fr_CA.ts" := by
  have h := matcher_one_catalogue_per_orphan_language exBase "harbour-app.ts" "out"
    [] [exSrcFrCA] (Language.mk "fr" "CA") (by decide)
  refine ⟨h.1, h.2.1, ?_, ?_⟩
  · rw [h.2.2.2.1]
    decide
  · rw [h.2.2.2.2.2.1 "harbour-app" rfl]
    decide

/-- One outcome of showing the interactive picker
(`terminal_menu.show()`, line 748): either the index of an accepted
option or the cancellation signal (`None`). -/
inductive PickerResult where
  | selected (index : Nat)
  | aborted
deriving DecidableEq

/-- Observable state of a run: how many merge edits were applied to the
in-memory catalogue trees and whether `_save` has written the
catalogues to disk. -/
structure RunState where
  changesApplied : Nat
  written : Bool
deriving DecidableEq

/-- The interactive tail of `_merge` (lines 651–764) after the batch
merge applied `c` in-memory edits: each accepted selection re-runs the
merge-apply step in forced-overwrite mode (`replace_translation`, lines
733–738), one more in-memory edit; the cancellation signal prints
"aborting..." and calls `sys.exit(0)` (lines 750–752).  Returns the
in-memory edit count and whether the process exited inside `_merge`. -/
def mergePhase : List PickerResult → Nat → Nat × Bool
  | [], c => (c, false)
  | PickerResult.selected _ :: rest, c => mergePhase rest (c + 1)
  | PickerResult.aborted :: _, c => (c, true)

/-- Exit code plus final state of a run. -/
structure RunOutcome where
  exitCode : Nat
  state : RunState
deriving DecidableEq

/-- `Merger.run` (lines 401–409), from `_merge` on: `_merge` then
`_save` (lines 766–771, which writes every target catalogue) — but a
`sys.exit(0)` raised inside `_merge` terminates the process before the
`_save` call is ever reached, so in that case nothing is written. -/
def runPipeline (batchChanges : Nat) (events : List PickerResult) : RunOutcome :=
  let m := mergePhase events batchChanges
  if m.2 then { exitCode := 0, state := { changesApplied := m.1, written := false } }
  else { exitCode := 0, state := { changesApplied := m.1, written := true } }

/-- C8 counterexample: a run with one applied in-memory change whose
picker is then aborted exits with code 0 — but with the catalogues *not*
written, contradicting the claim that every change applied before the
abort is persisted before termination. -/
theorem abort_skips_persistence_counterexample :
    (runPipeline 1 [PickerResult.aborted]).exitCode = 0
    ∧ (runPipeline 1 [PickerResult.aborted]).state.changesApplied = 1
    ∧ (runPipeline 1 [PickerResult.aborted]).state.written = false := by
  decide

/-- C8 (amended): aborting the picker halts the run cleanly with exit
code 0, but persistence is skipped entirely: `sys.exit(0)` fires inside
`_merge`, before `_save` runs, so no catalogue — merged or not — is
written to disk. -/
theorem abort_halts_without_persisting (batchChanges : Nat) (events : List PickerResult)
    (habort : (mergePhase events batchChanges).2 = true) :
    (runPipeline batchChanges events).exitCode = 0
    ∧ (runPipeline batchChanges events).state.written = false := by
  simp [runPipeline, habort]

/-- Witness for C8's amended theorem. -/
theorem abort_halts_without_persisting_witness :
    (runPipeline 2 [PickerResult.selected 0, PickerResult.aborted]).exitCode = 0
    ∧ (runPipeline 2 [PickerResult.selected 0, PickerResult.aborted]).state.written = false :=
  abort_halts_without_persisting 2 [PickerResult.selected 0, PickerResult.aborted] (by decide)

/-- An explicit heap of translation occurrences.  Python mutates the
occurrences in place through shared references; to state the frame
property the heap is made explicit as a map from occurrence identity to
current value, and every mutation of `_do_merge_string` is routed to the
identity the Python code mutates. -/
def Store : Type := Nat → TranslatedString

/-- Overwrite the occurrence at `i`. -/
def storeWrite (σ : Store) (i : Nat) (v : TranslatedString) : Store :=
  fun j => if j = i then v else σ j

/-- Lines 527–533 over the store: candidate selection among the
source-side occurrence ids, by the same filter/stable-ascending-sort,
first element. -/
def pickCandidateId (σ : Store) (t : TranslatedString) (srcIds : List Nat) : Option Nat :=
  let matching := (srcIds.filter (fun i => decide (0 < t.compatibility (σ i)))).map
    (fun i => (i, t.compatibility (σ i)))
  (List.insertionSort (fun a b => a.2 ≤ b.2) matching).head?.map Prod.fst

/-- `alternatives[target]` over the store (keys are occurrence ids). -/
def altLookupStore (σ : Store) (alts : List (Nat × List Nat)) (ti : Nat) : List Nat :=
  match alts.find? (fun p => (σ p.1).keySame (σ ti)) with
  | some p => p.2
  | none => []

/-- Slot update over the store. -/
def altUpdateStore (σ : Store) : List (Nat × List Nat) → Nat → List Nat → List (Nat × List Nat)
  | [], t, v => [(t, v)]
  | p :: rest, t, v =>
    if (σ p.1).keySame (σ t) then (p.1, v) :: rest else p :: altUpdateStore σ rest t v

/-- Lines 544–545 over the store. -/
def altRecordStore (σ : Store) (alts : List (Nat × List Nat)) (ti mi : Nat) :
    List (Nat × List Nat) :=
  if (altLookupStore σ alts ti).any (fun x => (σ x).pyEq (σ mi)) then alts
  else altUpdateStore σ alts ti (altLookupStore σ alts ti ++ [mi])

/-- One iteration of the `_do_merge_string` loop (lines 526–564) over the
store.  All writes — comment node (line 549), plural-form replacement or
text assignment (lines 551–560), finished flag (line 562) — go to the
target occurrence `ti`; the winning candidate is only read, its plural
forms being appended to the target as copies (`copy.copy`, line 556). -/
def mergeTargetStepStore (selfOverwrite : Bool) (ow : Option Bool)
    (srcIds : List Nat) (ti : Nat) (alts : List (Nat × List Nat)) (σ : Store) :
    Nat × List (Nat × List Nat) × Store :=
  let t := σ ti
  match pickCandidateId σ t srcIds with
  | none => (0, alts, σ)
  | some mi =>
    let m := σ mi
    if !m.has_content then (0, alts, σ)
    else if t.pyEq m then (0, alts, σ)
    else if t.is_finished && t.has_content
        && ((ow == none && !selfOverwrite) || ow == some false) then
      (0, altRecordStore σ alts ti mi, σ)
    else (1, alts, storeWrite σ ti (applyCandidate t m))

/-- `_do_merge_string` over the store: fold over the target occurrence
ids, threading changes, alternatives and the heap. -/
def doMergeStringStore (selfOverwrite : Bool) (srcIds : List Nat) (ow : Option Bool) :
    List Nat → Nat → List (Nat × List Nat) → Store →
      Nat × List (Nat × List Nat) × Store
  | [], changes, alts, σ => (changes, alts, σ)
  | ti :: rest, changes, alts, σ =>
    let r := mergeTargetStepStore selfOverwrite ow srcIds ti alts σ
    doMergeStringStore selfOverwrite srcIds ow rest (changes + r.1) r.2.1 r.2.2

/-- One loop iteration leaves every occurrence other than its target
untouched. -/
theorem mergeTargetStepStore_frame (selfOverwrite : Bool) (ow : Option Bool)
    (srcIds : List Nat) (ti : Nat) (alts : List (Nat × List Nat)) (σ : Store)
    (j : Nat) (hj : j ≠ ti) :
    (mergeTargetStepStore selfOverwrite ow srcIds ti alts σ).2.2 j = σ j := by
  unfold mergeTargetStepStore
  dsimp only
  split
  · rfl
  · split
    · rfl
    · split
      · rfl
      · split
        · rfl
        · simp [storeWrite, hj]

/-- The whole merge loop leaves every occurrence that is not among the
target ids untouched. -/
theorem doMergeStringStore_frame (selfOverwrite : Bool) (srcIds : List Nat)
    (ow : Option Bool) :
    ∀ (tgtIds : List Nat) (changes : Nat) (alts : List (Nat × List Nat)) (σ : Store)
      (j : Nat), j ∉ tgtIds →
      (doMergeStringStore selfOverwrite srcIds ow tgtIds changes alts σ).2.2 j = σ j := by
  intro tgtIds
  induction tgtIds with
  | nil => intro _ _ σ j _; rfl
  | cons ti rest ih =>
    intro changes alts σ j hj
    have hj1 : j ≠ ti := fun h => hj (h ▸ List.mem_cons_self ti rest)
    have hj2 : j ∉ rest := fun h => hj (List.mem_cons_of_mem _ h)
    have hrec := ih (changes + (mergeTargetStepStore selfOverwrite ow srcIds ti alts σ).1)
      (mergeTargetStepStore selfOverwrite ow srcIds ti alts σ).2.1
      (mergeTargetStepStore selfOverwrite ow srcIds ti alts σ).2.2 j hj2
    have hstep := mergeTargetStepStore_frame selfOverwrite ow srcIds ti alts σ j hj1
    simp only [doMergeStringStore]
    rw [hrec, hstep]

/-- C10: a merge never modifies a source-side occurrence — with the
source occurrences living at ids disjoint from the targets' (they are
distinct parse trees), the heap restricted to the source ids is
identical before and after the merge, so the source catalogue
serializes identically. -/
theorem merge_never_writes_sources
    (selfOverwrite : Bool) (ow : Option Bool) (srcIds tgtIds : List Nat)
    (changes : Nat) (alts : List (Nat × List Nat)) (σ : Store)
    (hdisj : ∀ i ∈ srcIds, i ∉ tgtIds) :
    ∀ i ∈ srcIds,
      (doMergeStringStore selfOverwrite srcIds ow tgtIds changes alts σ).2.2 i = σ i := by
  intro i hi
  exact doMergeStringStore_frame selfOverwrite srcIds ow tgtIds changes alts σ i (hdisj i hi)

/-- A concrete two-occurrence heap: the target at id 0, the source at
id 1. -/
def exStore : Store := fun i => if i = 0 then exTargetEmpty else exHigh

/-- Witness for C10: merging target id 0 against source id 1 modifies
id 0 (the merge applies) and leaves the source occurrence at id 1
untouched. -/
theorem merge_never_writes_sources_witness :
    (doMergeStringStore false [1] none [0] 0 [] exStore).2.2 1 = exStore 1
    ∧ (doMergeStringStore false [1] none [0] 0 [] exStore).1 = 1 := by
  refine ⟨merge_never_writes_sources false none [1] [0] 0 [] exStore (by decide) 1 (by decide), ?_⟩
  decide

end Opal
